import Mathlib

/-!
Verification of the `dynArray` tokenized string container from
`src/Lesson5 Task/Lesson5 Task.cpp` (class `dynArray`, a wrapper around
`std::vector<std::string>`).

The container state is modelled as `List String` (the `data` vector).
Each member function of the class is translated into a Lean definition:

* `dynArray(const std::string&, char)` — the splitting constructor, a
  `while (std::getline(ss, token, separator)) data.push_back(token);` loop,
  becomes `splitSep` (via `splitGo` on the character list).  Note the source
  line `data.` inside that loop is an incomplete fragment with no semantic
  content; the loop's effect is the sequence of `push_back(token)` calls.
  `std::getline` reads characters up to the separator (consuming but not
  storing it) or up to end of input, and fails — ending the loop without
  producing a token — exactly when it extracts no character at all, i.e.
  when it starts at end of input.
* `add` becomes `dynAdd` (vector `push_back`).
* `print` becomes `printOutput`, the exact character stream written to
  standard output: for each element `elem` it writes `elem` then `" "`, and
  finally `std::endl` writes `"\n"`.
* `resize` becomes `dynResize` (`std::vector::resize`: truncate to the first
  `n` elements, or extend with value-initialized — empty — strings).
* `size` becomes `dynSize`.
* `operator[]` (both overloads call `data.at(index)`, which throws
  `std::out_of_range` for an index not below the size) becomes `atIndex`,
  returning `Except DynError String`; the mutable form used for assignment
  (`d[i] = v`) becomes `setIndex`.
-/

/-- The single error kind the container can raise: `std::out_of_range`
thrown by `std::vector::at`. -/
inductive DynError : Type where
  | outOfRange : DynError
deriving DecidableEq, Repr

/-- The `while (std::getline(ss, token, separator))` loop of the splitting
constructor, over the remaining characters of the stream.  `acc` holds (in
reverse) the characters the current `getline` call has stored so far.
At a separator the current token is emitted and a fresh token begins; at end
of input the current `getline` succeeds with the pending token exactly when
it has extracted at least one character (`acc ≠ []`), and otherwise fails,
ending the loop with no further token. -/
def splitGo (c : Char) : List Char → List Char → List (List Char)
  | [], [] => []
  | [], a :: as => [(a :: as).reverse]
  | x :: xs, acc =>
    if x = c then acc.reverse :: splitGo c xs []
    else splitGo c xs (x :: acc)

/-- Constructor `dynArray(const std::string& str, char separator)`: split `str` on
`separator` with repeated `std::getline` and collect the tokens in order. -/
def splitSep (text : String) (sep : Char) : List String :=
  (splitGo sep text.data []).map String.mk

/-- Method `void add(const std::string& element) { data.push_back(element); }`. -/
def dynAdd (data : List String) (element : String) : List String :=
  data ++ [element]

/-- The exact stream `print() const` writes to standard output:
`elem << " "` for each element in order, then `std::endl`. -/
def printOutput (data : List String) : String :=
  String.join (data.map (fun elem => elem ++ " ")) ++ "\n"

/-- Method `void resize(size_t newSize) { data.resize(newSize); }` —
`std::vector::resize` truncates to the first `newSize` elements when
shrinking and appends value-initialized (empty) strings when growing. -/
def dynResize (data : List String) (newSize : Nat) : List String :=
  if newSize ≤ data.length then data.take newSize
  else data ++ List.replicate (newSize - data.length) ""

/-- Method `size_t size() const { return data.size(); }`. -/
def dynSize (data : List String) : Nat :=
  data.length

/-- Indexed access `operator[](size_t index)` — both overloads return `data.at(index)`,
which yields the element when `index < size()` and throws
`std::out_of_range` otherwise. -/
def atIndex (data : List String) (index : Nat) : Except DynError String :=
  if h : index < data.length then Except.ok (data.get ⟨index, h⟩)
  else Except.error DynError.outOfRange

/-- Assignment through the mutable accessor, `d[index] = v`: `data.at(index)`
returns a reference (throwing `std::out_of_range` when `index` is not below
the size), and the assignment overwrites the element it refers to. -/
def setIndex (data : List String) (index : Nat) (v : String) :
    Except DynError (List String) :=
  if index < data.length then Except.ok (data.set index v)
  else Except.error DynError.outOfRange

/-- The operations of the `dynArray` API other than indexed access. -/
inductive DynOp : Type where
  | mkEmpty : DynOp
  | mkSplit (text : String) (sep : Char) : DynOp
  | add (element : String) : DynOp
  | resize (n : Nat) : DynOp
  | size : DynOp
  | print : DynOp

/-- Run one non-indexing operation on a container state.  The result is the
new state, the value returned by `size()` (`0` for the others, which return
nothing), and the text written to standard output (empty for all but
`print`).  Only `operator[]` can raise `DynError`, so every case here is
`Except.ok`; the common result type makes "never fails" a statement rather
than a typing accident. -/
def runOp (data : List String) : DynOp → Except DynError (List String × Nat × String)
  | DynOp.mkEmpty => Except.ok ([], 0, "")
  | DynOp.mkSplit text sep => Except.ok (splitSep text sep, 0, "")
  | DynOp.add element => Except.ok (dynAdd data element, 0, "")
  | DynOp.resize n => Except.ok (dynResize data n, 0, "")
  | DynOp.size => Except.ok (data, dynSize data, "")
  | DynOp.print => Except.ok (data, 0, printOutput data)

/-- C9: splitting the empty string on any separator yields zero tokens
(the first `getline` starts at end of input and fails immediately). -/
theorem splitSep_empty (sep : Char) : splitSep "" sep = [] := rfl

/-- C1: indexed access (`operator[]`, i.e. `data.at(index)`) returns the
token at logical position `index` whenever `index < size()`, and fails with
the observable `std::out_of_range` error — never a default value — whenever
`index` is not below the size. -/
theorem atIndex_spec (data : List String) (index : Nat) :
    (∀ h : index < data.length, atIndex data index = Except.ok (data.get ⟨index, h⟩)) ∧
    (data.length ≤ index → atIndex data index = Except.error DynError.outOfRange) := by
  constructor
  · intro h
    simp [atIndex, h]
  · intro h
    rw [atIndex, dif_neg (by omega)]

/-- Witness for `atIndex_spec` on the container split from `"one two three"`:
index `1` yields `"two"`, index `5` is out of range. -/
theorem atIndex_spec_witness :
    atIndex (splitSep "one two three" ' ') 1 = Except.ok "two" ∧
    atIndex (splitSep "one two three" ' ') 5 = Except.error DynError.outOfRange := by
  constructor
  · exact (atIndex_spec (splitSep "one two three" ' ') 1).1 (by decide)
  · exact (atIndex_spec (splitSep "one two three" ' ') 5).2 (by decide)

/-- C4: `add` appends `element` as the new last entry, increases the length
by exactly 1, and leaves every previously stored token at its position. -/
theorem dynAdd_spec (data : List String) (element : String) :
    (dynAdd data element).length = data.length + 1 ∧
    (dynAdd data element).getLast? = some element ∧
    (dynAdd data element).take data.length = data := by
  refine ⟨by simp [dynAdd], ?_, ?_⟩
  · simp [dynAdd]
  · simp [dynAdd, List.take_left]

/-- C3: `resize(n)` always yields length `n`; the first `min n (old length)`
elements are the corresponding old elements in order (so for `n` below the
old length the first `n` old elements survive unchanged, and for `n` equal
to it the contents are unchanged); everything past the old length is an
empty string. -/
theorem dynResize_spec (data : List String) (n : Nat) :
    (dynResize data n).length = n ∧
    (dynResize data n).take (min n data.length) = data.take n ∧
    (dynResize data n).drop data.length = List.replicate (n - data.length) "" ∧
    dynResize data data.length = data := by
  refine ⟨?_, ?_, ?_, ?_⟩
  · by_cases h : n ≤ data.length
    · simp [dynResize, h, Nat.min_eq_left h]
    · simp [dynResize, h]
      omega
  · by_cases h : n ≤ data.length
    · simp [dynResize, h, Nat.min_eq_left h, List.take_take]
    · have h' : data.length ≤ n := by omega
      simp [dynResize, h, Nat.min_eq_right h', List.take_append_of_le_length,
        List.take_of_length_le h']
  · by_cases h : n ≤ data.length
    · simp [dynResize, h]
    · rw [dynResize, if_neg h]
      exact List.drop_left data (List.replicate (n - data.length) "")
  · simp [dynResize]

/-- C8: assigning through the mutable accessor at a valid index replaces
only the token at that position: the length is unchanged, the token at the
assigned position becomes the new value, and every token at any other
position is unchanged. -/
theorem setIndex_spec (data : List String) (index : Nat) (v : String)
    (h : index < data.length) :
    ∃ d, setIndex data index v = Except.ok d ∧
      d.length = data.length ∧
      d.getD index "" = v ∧
      ∀ j : Nat, j ≠ index → d.getD j "" = data.getD j "" := by
  refine ⟨data.set index v, ?_, ?_, ?_, ?_⟩
  · simp [setIndex, h]
  · exact List.length_set data index v
  · simp [List.getD_eq_getElem?_getD, List.getElem?_set_eq_of_lt _ h]
  · intro j hj
    simp [List.getD_eq_getElem?_getD, List.getElem?_set_ne (Ne.symm hj)]

/-- Witness for `setIndex_spec`: assigning `"X"` at index `1` of the
container split from `"one two three"`. -/
theorem setIndex_spec_witness :
    ∃ d, setIndex (splitSep "one two three" ' ') 1 "X" = Except.ok d ∧
      d.length = (splitSep "one two three" ' ').length ∧
      d.getD 1 "" = "X" ∧
      ∀ j : Nat, j ≠ 1 → d.getD j "" = (splitSep "one two three" ' ').getD j "" :=
  setIndex_spec (splitSep "one two three" ' ') 1 "X" (by decide)

/-- C7: every operation other than indexed access — empty construction,
splitting construction, `add`, `resize`, `size` and `print` — is total and
never fails: running it on any container state yields `Except.ok`. -/
theorem runOp_total (data : List String) (op : DynOp) :
    ∃ r, runOp data op = Except.ok r := by
  cases op <;> exact ⟨_, rfl⟩

/-- Folding string concatenation from any initial string equals the initial
string followed by the fold from the empty string. -/
theorem foldl_append_init (init : String) (l : List String) :
    List.foldl (fun r s => r ++ s) init l = init ++ List.foldl (fun r s => r ++ s) "" l := by
  induction l generalizing init with
  | nil => simp [List.foldl]
  | cons b bs ih =>
    simp only [List.foldl]
    rw [ih (init ++ b), ih ("" ++ b)]
    simp [String.append_assoc]

/-- Pulling the head out of a string join. -/
theorem join_cons (a : String) (l : List String) :
    String.join (a :: l) = a ++ String.join l := by
  simp only [String.join, List.foldl]
  rw [foldl_append_init ("" ++ a)]
  simp

/-- Unfolding of `String.intercalate.go`: the pending first token followed
by the remaining tokens, each preceded by the separator. -/
theorem intercalate_go_eq (s : String) (as : List String) (a : String) :
    String.intercalate.go a s as = a ++ String.join (as.map (fun x => s ++ x)) := by
  induction as generalizing a with
  | nil => simp [String.intercalate.go, String.join]
  | cons b bs ih =>
    rw [String.intercalate.go, ih]
    simp [join_cons, String.append_assoc]

/-- Moving a leading space across a join of space-terminated tokens. -/
theorem shift_space (l : List String) :
    " " ++ String.join (l.map (fun x => x ++ " ")) =
      String.join (l.map (fun x => " " ++ x)) ++ " " := by
  induction l with
  | nil => simp [String.join]
  | cons b bs ih =>
    simp only [List.map, join_cons]
    rw [String.append_assoc b " ", ih]
    simp [String.append_assoc]

/-- C2 (amended): `print` writes the tokens in order with a single space
between consecutive tokens, but each token is followed by a space, so a
trailing space precedes the line terminator whenever the container is
non-empty; in particular for the container split from `"one two three"` the
output is `"one two three \n"`, not `"one two three\n"`. -/
theorem printOutput_spec :
    (∀ data : List String,
      printOutput data =
        String.intercalate " " data ++ (if data.isEmpty then "" else " ") ++ "\n") ∧
    printOutput (splitSep "one two three" ' ') = "one two three \n" := by
  constructor
  · intro data
    cases data with
    | nil => rfl
    | cons d ds =>
      simp only [printOutput, List.map, join_cons, String.intercalate, intercalate_go_eq,
        List.isEmpty_cons, if_neg Bool.false_ne_true]
      rw [String.append_assoc d " ", shift_space]
      simp [String.append_assoc]
  · rfl

/-- C2 (counterexample): on the container split from `"one two three"`,
`print` does not write `"one two three\n"` — the actual output has a
trailing space before the newline. -/
theorem printOutput_trailing_space_counterexample :
    printOutput (splitSep "one two three" ' ') ≠ "one two three\n" := by
  decide

/-- When the separator never occurs, the whole remaining input together with
the pending characters becomes one single token — provided some `getline`
call still succeeds, i.e. input or pending characters remain. -/
theorem splitGo_no_sep (c : Char) (s : List Char) :
    ∀ acc : List Char, c ∉ s → (s ≠ [] ∨ acc ≠ []) →
      splitGo c s acc = [acc.reverse ++ s] := by
  induction s with
  | nil =>
    intro acc _ hne
    cases acc with
    | nil => simp at hne
    | cons a as => simp [splitGo]
  | cons x xs ih =>
    intro acc hmem _
    have hx : ¬ x = c := fun h => hmem (h ▸ List.mem_cons_self x xs)
    rw [splitGo, if_neg hx, ih (x :: acc) (fun h => hmem (List.mem_cons_of_mem x h))
      (Or.inr (by simp))]
    simp

/-- Token count of the `getline` loop: one token per separator occurrence,
plus one final token unless the input ends in a separator or there is
nothing at all (no remaining input and no pending characters). -/
theorem splitGo_length (c : Char) (s : List Char) :
    ∀ acc : List Char,
      (splitGo c s acc).length =
        s.count c +
          (if s.getLast? = some c then 0 else if s = [] ∧ acc = [] then 0 else 1) := by
  induction s with
  | nil =>
    intro acc
    cases acc with
    | nil => simp [splitGo]
    | cons a as => simp [splitGo]
  | cons x xs ih =>
    intro acc
    by_cases hx : x = c
    · subst hx
      rw [splitGo, if_pos rfl]
      simp only [List.length_cons, ih []]
      rw [List.count_cons_self]
      cases xs with
      | nil => simp
      | cons y ys =>
        rw [List.getLast?_cons_cons]
        by_cases hl : (y :: ys).getLast? = some x
        · simp [hl]
        · simp [hl]
    · rw [splitGo, if_neg hx, ih (x :: acc)]
      have hbeq : ¬ ((x == c) = true) := by simpa using hx
      rw [List.count_cons, if_neg hbeq, Nat.add_zero]
      cases xs with
      | nil => simp [hx]
      | cons y ys =>
        rw [List.getLast?_cons_cons]
        by_cases hl : (y :: ys).getLast? = some c
        · simp [hl]
        · simp [hl]

/-- Appending one final separator to the input changes nothing, as long as
the part before it neither is empty (with no pending characters) nor itself
ends in a separator: the `getline` call after the final separator extracts
no character, fails, and produces no token. -/
theorem splitGo_append_sep (c : Char) (s : List Char) :
    ∀ acc : List Char, (s = [] → acc ≠ []) → s.getLast? ≠ some c →
      splitGo c (s ++ [c]) acc = splitGo c s acc := by
  induction s with
  | nil =>
    intro acc hne _
    cases acc with
    | nil => exact absurd rfl (hne rfl)
    | cons a as => simp [splitGo]
  | cons x xs ih =>
    intro acc _ hlast
    by_cases hx : x = c
    · subst hx
      have hxs : xs ≠ [] := by
        intro h
        subst h
        simp at hlast
      rw [List.cons_append, splitGo, if_pos rfl]
      conv_rhs => rw [splitGo, if_pos rfl]
      congr 1
      refine ih [] (fun h => absurd h hxs) ?_
      cases xs with
      | nil => exact absurd rfl hxs
      | cons y ys =>
        rw [List.getLast?_cons_cons] at hlast
        exact hlast
    · rw [List.cons_append, splitGo, if_neg hx]
      conv_rhs => rw [splitGo, if_neg hx]
      refine ih (x :: acc) (by simp) ?_
      cases xs with
      | nil => simp [hx]
      | cons y ys =>
        rw [List.getLast?_cons_cons] at hlast
        exact hlast

/-- C5 (amended): for every separator `sep` and every *non-empty* string
`text` containing no occurrence of `sep`, the splitting constructor yields
exactly one token, equal to `text`.  (The empty string instead yields zero
tokens, see the counterexample.) -/
theorem splitSep_no_sep (text : String) (sep : Char) (hne : text ≠ "")
    (hmem : sep ∉ text.data) : splitSep text sep = [text] := by
  have hd : text.data ≠ [] := by
    intro h
    apply hne
    apply String.ext
    simpa using h
  rw [splitSep, splitGo_no_sep sep text.data [] hmem (Or.inl hd)]
  simp

/-- Witness for `splitSep_no_sep`: `"abc"` contains no `','` and splits
into the single token `"abc"`. -/
theorem splitSep_no_sep_witness : splitSep "abc" ',' = ["abc"] :=
  splitSep_no_sep "abc" ',' (by decide) (by decide)

/-- C5 (counterexample): the empty string contains no occurrence of `' '`,
yet splitting it yields zero tokens, not the single token `""` the claim
demands for every separator-free string "including the empty string". -/
theorem splitSep_empty_one_token_counterexample :
    (' ' ∉ ("" : String).data) ∧ splitSep "" ' ' ≠ [""] := by decide

/-- C6 (amended): the number of tokens equals the number of occurrences of
`sep` in `text` plus 1, except that the final token is not produced when
`text` ends in `sep` or is empty: in those cases the count equals the number
of occurrences exactly. -/
theorem splitSep_length (text : String) (sep : Char) :
    (splitSep text sep).length =
      text.data.count sep +
        (if text.data.getLast? = some sep then 0 else if text.data = [] then 0 else 1) := by
  rw [splitSep, List.length_map, splitGo_length sep text.data []]
  by_cases h : text.data.getLast? = some sep
  · simp [h]
  · simp [h]

/-- C6 (counterexample): `"a,"` contains one `','`, but splitting it yields
one token (`["a"]`), not the two the occurrences-plus-one rule predicts. -/
theorem splitSep_count_counterexample :
    (splitSep "a," ',').length ≠ ("a," : String).data.count ',' + 1 := by decide

/-- C10 (amended): for a string ending in the separator, splitting drops
that final separator — the tokens are exactly those of the prefix before
it — provided that prefix is non-empty and does not itself end in the
separator.  (Otherwise the `getline` ending at the final separator has
still extracted a character and emits one more, empty, token than the
prefix alone would; see the counterexample.) -/
theorem splitSep_trailing_sep (text : String) (sep : Char)
    (hlast : text.data.getLast? = some sep)
    (hpre : text.data.dropLast ≠ [])
    (hpl : text.data.dropLast.getLast? ≠ some sep) :
    splitSep text sep = splitSep (String.mk text.data.dropLast) sep := by
  have hne : text.data ≠ [] := by
    intro h
    rw [h] at hlast
    simp at hlast
  have hdecomp : text.data.dropLast ++ [sep] = text.data := by
    have h1 := List.dropLast_append_getLast hne
    have h2 : text.data.getLast hne = sep := by
      have h3 := List.getLast?_eq_getLast text.data hne
      rw [h3] at hlast
      exact Option.some.inj hlast
    rw [← h2]
    exact h1
  unfold splitSep
  congr 1
  conv_lhs => rw [← hdecomp]
  exact splitGo_append_sep sep _ [] (fun h => absurd h hpre) hpl

/-- Witness for `splitSep_trailing_sep`: `"a,b,"` ends in `','` and splits
exactly like its prefix `"a,b"`. -/
theorem splitSep_trailing_sep_witness :
    splitSep "a,b," ',' = splitSep (String.mk ("a,b," : String).data.dropLast) ',' :=
  splitSep_trailing_sep "a,b," ',' (by decide) (by decide) (by decide)

/-- C10 (counterexample): `","` is non-empty and ends in the separator
`','`, yet splitting it yields the single empty token `[""]` — a trailing
empty token — and not the zero tokens that its prefix `""` produces. -/
theorem splitSep_trailing_sep_counterexample :
    ("," : String).data.getLast? = some ',' ∧
    splitSep "," ',' = [""] ∧
    splitSep "," ',' ≠ splitSep "" ',' := by decide
